import Mathlib

/-!
Verification of the Kwaxel pixel-art editor core (`src/KwaxelGenerator.jsx`).

The editor state is shallowly embedded: the `Uint32Array` pixel buffer becomes
a `List Nat` of packed ARGB values (each value kept below 2^32 by the store
semantics), JavaScript numbers produced by bitwise operators become `Int`
(JS `<<`, `|`, `&` operate on 32-bit two's-complement; `>>>` on unsigned
32-bit), and React state (`pixels`, `history`, `future`, `color`) becomes an
explicit record with pure transition functions.
-/

set_option maxRecDepth 8000

namespace Kwaxel

/-! ## JavaScript number semantics (ToInt32 / ToUint32 / bitwise operators) -/

/-- ToUint32: the 32-bit pattern of a JS integer, as a natural number. -/
def toUint32 (n : Int) : Nat := (n % 4294967296).toNat

/-- ToInt32: the signed 32-bit value of a JS integer. -/
def toInt32 (n : Int) : Int :=
  let u := n % 4294967296
  if u < 2147483648 then u else u - 4294967296

/-- Bitwise OR on `f` low bits, computed bit by bit (JS `|` uses f = 32). -/
def orWord : Nat → Nat → Nat → Nat
  | 0, _, _ => 0
  | f + 1, u, v => max (u % 2) (v % 2) + 2 * orWord f (u / 2) (v / 2)

/-- Bitwise AND on `f` low bits, computed bit by bit (JS `&` uses f = 32). -/
def andWord : Nat → Nat → Nat → Nat
  | 0, _, _ => 0
  | f + 1, u, v => min (u % 2) (v % 2) + 2 * andWord f (u / 2) (v / 2)

/-- JS `a | b`: both operands to int32, bitwise OR, result int32. -/
def jsOr (a b : Int) : Int := toInt32 (orWord 32 (toUint32 a) (toUint32 b))

/-- JS `a & b`: both operands to int32, bitwise AND, result int32. -/
def jsAnd (a b : Int) : Int := toInt32 (andWord 32 (toUint32 a) (toUint32 b))

/-- JS `a << k` for a constant shift `k < 32`: int32 wrap-around shift. -/
def jsShl (a : Int) (k : Nat) : Int := toInt32 (toInt32 a * 2 ^ k)

/-- JS `a >>> k` for a constant shift `k < 32`: unsigned 32-bit shift. -/
def jsShrU (a : Int) (k : Nat) : Int := ((toUint32 a / 2 ^ k : Nat) : Int)

/-! ## String machinery for `hexToArgb` (strings are modelled as `List Char`) -/

/-- JS whitespace characters recognised by `trim` and `parseInt`. -/
def isJsWs (c : Char) : Bool :=
  c.toNat = 9 || c.toNat = 10 || c.toNat = 11 || c.toNat = 12 || c.toNat = 13 ||
  c.toNat = 32 || c.toNat = 160 || c.toNat = 8232 || c.toNat = 8233 || c.toNat = 65279

/-- Hexadecimal digit test (`0-9`, `a-f`, `A-F`). -/
def isHexDigitChar (c : Char) : Bool :=
  (48 ≤ c.toNat && c.toNat ≤ 57) || (97 ≤ c.toNat && c.toNat ≤ 102) ||
  (65 ≤ c.toNat && c.toNat ≤ 70)

/-- Value of a hexadecimal digit (0 for anything else). -/
def hexDigitVal (c : Char) : Nat :=
  if 48 ≤ c.toNat ∧ c.toNat ≤ 57 then c.toNat - 48
  else if 65 ≤ c.toNat ∧ c.toNat ≤ 70 then c.toNat - 55
  else if 97 ≤ c.toNat ∧ c.toNat ≤ 102 then c.toNat - 87
  else 0

/-- JS `parseInt(s, 16)`: skip whitespace, optional sign, optional `0x`
prefix, then the longest prefix of hex digits; `none` models `NaN`. -/
def parseIntHex (s : List Char) : Option Int :=
  let s1 := s.dropWhile isJsWs
  let sign : Int := if s1.headD ' ' = '-' then -1 else 1
  let s2 := if s1.headD ' ' = '-' ∨ s1.headD ' ' = '+' then s1.tail else s1
  let s3 := if s2.headD ' ' = '0' ∧ (s2.tail.headD ' ' = 'x' ∨ s2.tail.headD ' ' = 'X')
    then s2.tail.tail else s2
  let digs := s3.takeWhile isHexDigitChar
  if digs.isEmpty then none
  else some (sign * ((digs.foldl (fun acc c => acc * 16 + hexDigitVal c) 0 : Nat) : Int))

/-- JS `String.prototype.replace("#", "")`: removes the first `#` only. -/
def removeFirstHash : List Char → List Char
  | [] => []
  | '#' :: t => t
  | c :: t => c :: removeFirstHash t

/-- JS `String.prototype.trim()`. -/
def jsTrim (s : List Char) : List Char :=
  ((s.dropWhile isJsWs).reverse.dropWhile isJsWs).reverse

/-- A `parseInt` result used as a bitwise operand: `ToInt32`/`ToUint32` both
send `NaN` to 0, so `none` becomes 0 before entering `jsShl`/`jsOr`. -/
def chan (o : Option Int) : Int := o.getD 0

/-- Model of `hexToArgb` from KwaxelGenerator.jsx: strips the first `#`, trims, then
parses `rgb` / `rrggbb` / `aarrggbb`; any other length yields the literal
`0xff000000` (a positive JS double, 4278190080).  The 3- and 6-digit branches
produce their value with `(0xff << 24) | ...`, an int32 (hence negative). -/
def hexToArgb (hex : List Char) : Int :=
  let s := jsTrim (removeFirstHash hex)
  if s.length = 3 then
    let r := parseIntHex [s.getD 0 ' ', s.getD 0 ' ']
    let g := parseIntHex [s.getD 1 ' ', s.getD 1 ' ']
    let b := parseIntHex [s.getD 2 ' ', s.getD 2 ' ']
    jsOr (jsOr (jsOr (jsShl 255 24) (jsShl (chan r) 16)) (jsShl (chan g) 8)) (chan b)
  else if s.length = 6 then
    let r := parseIntHex (s.take 2)
    let g := parseIntHex ((s.drop 2).take 2)
    let b := parseIntHex ((s.drop 4).take 2)
    jsOr (jsOr (jsOr (jsShl 255 24) (jsShl (chan r) 16)) (jsShl (chan g) 8)) (chan b)
  else if s.length = 8 then
    let a := parseIntHex (s.take 2)
    let r := parseIntHex ((s.drop 2).take 2)
    let g := parseIntHex ((s.drop 4).take 2)
    let b := parseIntHex ((s.drop 6).take 2)
    jsOr (jsOr (jsOr (jsShl (chan a) 24) (jsShl (chan r) 16)) (jsShl (chan g) 8)) (chan b)
  else 4278190080


/-! ## Pixel buffer and tools -/

/-- Grid width (constant `W = 32` in the source). -/
def W : Nat := 32

/-- Grid height (constant `H = 32` in the source). -/
def H : Nat := 32

/-- History cap (constant `MAX_HISTORY = 200` in the source). -/
def MAX_HISTORY : Nat := 200

/-- Row-major index `toIndex(x, y) = y * W + x`, computed on JS numbers. -/
def toIndex (x y : Int) : Int := y * (W : Int) + x

/-- Raw JS indexing `buf[i]` into a `Uint32Array` of the buffer's length:
the stored unsigned value in range, `undefined` (`none`) outside. -/
def jsIndex (l : List Nat) (i : Int) : Option Nat :=
  if 0 ≤ i ∧ i.toNat < l.length then some (l.getD i.toNat 0) else none

/-- The buffer read `prev[toIndex(x, y)]`. -/
def readPixel (buf : List Nat) (x y : Int) : Option Nat := jsIndex buf (toIndex x y)

/-- Model of `setPixel`: bounds-guarded store; `argb >>> 0` coerces to uint32. -/
def setPixel (buf : List Nat) (x y : Int) (argb : Int) : List Nat :=
  if x < 0 ∨ y < 0 ∨ (W : Int) ≤ x ∨ (H : Int) ≤ y then buf
  else buf.set (toIndex x y).toNat (toUint32 argb)

/-- Model of `drawBrush`: writes `argb` to the square footprint of side `brush`
centered at `(x, y)` with offset bias `r = floor(brush / 2)`; the source
loops `j` then `i` from `-r` to `brush - r - 1`, reindexed here over
`List.range brush` with the same cells in the same order. -/
def drawBrush (brush : Nat) (buf : List Nat) (x y : Int) (argb : Int) : List Nat :=
  let r : Int := (brush / 2 : Nat)
  (List.range brush).foldl (fun b (jj : Nat) =>
    (List.range brush).foldl (fun b2 (ii : Nat) =>
      setPixel b2 (x + (ii : Int) - r) (y + (jj : Int) - r) argb) b) buf

/-- The `while (stack.length)` loop of `floodFill`, with explicit fuel:
`none` means the loop did not finish within `fuel` iterations.  Each
iteration pops the top cell, skips it if out of bounds or not strictly
equal (`!==`) to `target`, else stores `replacement` (coerced to uint32 by
the `Uint32Array`) and pushes the four neighbours; the source pushes
`[cx+1,cy], [cx-1,cy], [cx,cy+1], [cx,cy-1]`, so `[cx,cy-1]` is popped
first. -/
def floodFillAux : Nat → List Nat → Int → Int → List (Int × Int) → Option (List Nat)
  | _, buf, _, _, [] => some buf
  | 0, _, _, _, _ :: _ => none
  | fuel + 1, buf, target, repl, (cx, cy) :: rest =>
    if cx < 0 ∨ cy < 0 ∨ (W : Int) ≤ cx ∨ (H : Int) ≤ cy then
      floodFillAux fuel buf target repl rest
    else
      let idx := (toIndex cx cy).toNat
      if (buf.getD idx 0 : Int) ≠ target then
        floodFillAux fuel buf target repl rest
      else
        floodFillAux fuel (buf.set idx (toUint32 repl)) target repl
          ((cx, cy - 1) :: (cx, cy + 1) :: (cx - 1, cy) :: (cx + 1, cy) :: rest)

/-- Model of `floodFill(buf, x, y, target, replacement)`: early return when
`target === replacement`, else the iterative loop seeded with `[[x, y]]`. -/
def floodFill (fuel : Nat) (buf : List Nat) (x y : Int) (target repl : Int) :
    Option (List Nat) :=
  if target = repl then some buf else floodFillAux fuel buf target repl [(x, y)]

/-! ## Editor state, history, and `handlePaintAt` -/

/-- The editor's React state: pixel buffer, undo stack, redo stack, and the
current color string.  `Uint32Array` snapshots have value semantics here, so
`copyPixels` is the identity. -/
structure EState where
  pixels : List Nat
  history : List (List Nat)
  future : List (List Nat)
  color : List Char
deriving DecidableEq, Repr

/-- Model of `pushHistory(prevPixels)`: append a snapshot, keep only the most recent
`MAX_HISTORY` entries, clear the redo stack. -/
def pushHistory (s : EState) (prev : List Nat) : EState :=
  let next := s.history ++ [prev]
  { s with
    history := if next.length > MAX_HISTORY then next.drop (next.length - MAX_HISTORY) else next
    future := [] }

/-- Model of `undo()`: no-op on empty history, else move the current buffer to the
redo stack and restore the top undo snapshot. -/
def undo (s : EState) : EState :=
  match s.history.getLast? with
  | none => s
  | some last =>
    { pixels := last
      history := s.history.dropLast
      future := s.pixels :: s.future
      color := s.color }

/-- Model of `redo()`: no-op on empty future, else move the current buffer back to
the undo stack and restore the first redo snapshot. -/
def redo (s : EState) : EState :=
  match s.future with
  | [] => s
  | p :: rest =>
    { pixels := p
      history := s.history ++ [s.pixels]
      future := rest
      color := s.color }

/-- The four tools. -/
inductive Tool
  | pencil
  | eraser
  | fill
  | eyedropper
deriving DecidableEq, Repr

/-- A hexadecimal digit as a character, as produced by JS
`Number.prototype.toString(16)` (lowercase). -/
def hexDigitChar (n : Nat) : Char :=
  if n < 10 then Char.ofNat (48 + n) else Char.ofNat (87 + n)

/-- Model of `n.toString(16).padStart(2, "0")` for a byte `n < 256`. -/
def byteToHex (n : Nat) : List Char :=
  if n < 16 then ['0', hexDigitChar n]
  else [hexDigitChar (n / 16), hexDigitChar (n % 16)]

/-- The eyedropper's color string
`"#" + [r, g, b].map(n => n.toString(16).padStart(2, "0")).join("")`
where `r/g/b` are extracted with `>>>` and `& 0xff` from the picked value. -/
def pickColor (picked : Nat) : List Char :=
  let r := toUint32 (jsAnd (jsShrU (picked : Int) 16) 255)
  let g := toUint32 (jsAnd (jsShrU (picked : Int) 8) 255)
  let b := toUint32 (jsAnd ((picked : Int)) 255)
  '#' :: (byteToHex r ++ byteToHex g ++ byteToHex b)

/-- Model of `handlePaintAt(x, y, withHistory)` for a given tool, brush and state.
The source computes `current = prev[toIndex(x, y)]` (callers always pass
clamped in-bounds coordinates, so the in-range read is modelled with
default 0), calls `pushHistory(prev)` whenever `withHistory` — before any
tool dispatch — and then applies the tool to a copy of `prev`.  The fill
branch needs fuel because the source loop need not terminate; `none` means
the call never returns. -/
def handlePaintAt (fuel : Nat) (tool : Tool) (brush : Nat) (x y : Int)
    (withHistory : Bool) (s : EState) : Option EState :=
  let prev := s.pixels
  let current := prev.getD (toIndex x y).toNat 0
  let argb := if tool = Tool.eraser then 0 else hexToArgb s.color
  let s1 := if withHistory then pushHistory s prev else s
  match tool with
  | Tool.pencil => some { s1 with pixels := drawBrush brush prev x y argb }
  | Tool.eraser => some { s1 with pixels := drawBrush brush prev x y argb }
  | Tool.fill =>
    (floodFill fuel prev x y (current : Int) argb).map fun p => { s1 with pixels := p }
  | Tool.eyedropper =>
    let picked := prev.getD (toIndex x y).toNat 0
    some { s1 with color := pickColor picked }

/-! ## Painting sessions (pointer-down, then moves) and import -/

/-- One pencil stroke session: the user may pick a color, then pointer-down
at `start` (which pushes one history entry), then drags through `moves`
(no further history entries). -/
structure Stroke where
  color : List Char
  brush : Nat
  start : Int × Int
  moves : List (Int × Int)

/-- One `handlePaintAt` with the pencil tool; always succeeds (the pencil
branch needs no fuel), extracted with `getD` for convenience. -/
def pencilAt (brush : Nat) (p : Int × Int) (withHistory : Bool) (s : EState) : EState :=
  (handlePaintAt 0 Tool.pencil brush p.1 p.2 withHistory s).getD s

/-- Apply one stroke session: pointer-down with history, then the moves. -/
def applyStroke (s : EState) (st : Stroke) : EState :=
  let s0 := { s with color := st.color }
  let s1 := pencilAt st.brush st.start true s0
  st.moves.foldl (fun acc p => pencilAt st.brush p false acc) s1

/-- Apply a sequence of stroke sessions. -/
def applyStrokes (s : EState) (l : List Stroke) : EState := l.foldl applyStroke s

/-- Model of `imageDataToPixels`: packs RGBA byte quadruples into uint32 ARGB
values, one per grid cell. -/
def imageDataToPixels (data : List Nat) (w h : Nat) : List Nat :=
  (List.range (w * h)).map fun i =>
    let o := i * 4
    let r : Int := (data.getD o 0 : Nat)
    let g : Int := (data.getD (o + 1) 0 : Nat)
    let b : Int := (data.getD (o + 2) 0 : Nat)
    let a : Int := (data.getD (o + 3) 0 : Nat)
    toUint32 (jsOr (jsOr (jsOr (jsShl (jsAnd a 255) 24) (jsShl (jsAnd r 255) 16))
      (jsShl (jsAnd g 255) 8)) (jsAnd b 255))

/-- Model of `importFromFile`: the browser image decode (`await` on `img.onload` /
`img.onerror`) is a host capability, passed here as an `Except` carrying
either the decoded-and-resampled W×H RGBA samples or the decode error.
A rejected decode makes the `await` throw, so `pushHistory` and
`setPixels` — which the source places strictly after the `await` — never
run and no new state is produced. -/
def importFromFile (s : EState) (decoded : Except String (List Nat)) : Except String EState :=
  match decoded with
  | Except.error e => Except.error e
  | Except.ok data =>
    let s1 := pushHistory s s.pixels
    Except.ok { s1 with pixels := imageDataToPixels data W H }


/-! ## Arithmetic facts about the JS number model -/

theorem toUint32_lt (n : Int) : toUint32 n < 4294967296 := by
  unfold toUint32
  have h1 : n % 4294967296 < 4294967296 := Int.emod_lt_of_pos n (by norm_num)
  omega

theorem toUint32_coe (n : Nat) (h : n < 4294967296) : toUint32 (n : Int) = n := by
  unfold toUint32
  rw [Int.emod_eq_of_lt (by positivity) (by exact_mod_cast h)]
  exact Int.toNat_natCast n

theorem toUint32_toInt32 (x : Int) : toUint32 (toInt32 x) = toUint32 x := by
  unfold toInt32 toUint32
  by_cases h : x % 4294967296 < 2147483648
  · simp only [h, if_true, Int.emod_emod_of_dvd _ dvd_rfl]
  · have hs : (x % 4294967296 - 4294967296) % 4294967296 = x % 4294967296 % 4294967296 := by
      rw [Int.sub_emod, Int.emod_self, Int.sub_zero, Int.emod_emod_of_dvd _ dvd_rfl]
    simp only [h, if_false, hs, Int.emod_emod_of_dvd _ dvd_rfl]

theorem orWord_zero_right : ∀ f u, u < 2 ^ f → orWord f u 0 = u := by
  intro f
  induction f with
  | zero => intro u h; interval_cases u; rfl
  | succ f ih =>
    intro u h
    have hd : u / 2 < 2 ^ f := by
      have h2 : (2 : Nat) ^ (f + 1) = 2 ^ f * 2 := Nat.pow_succ ..
      omega
    simp only [orWord, Nat.zero_mod, Nat.zero_div, ih (u / 2) hd, Nat.max_zero]
    omega

theorem orWord_lt : ∀ f u v, orWord f u v < 2 ^ f := by
  intro f
  induction f with
  | zero => intro u v; simp [orWord]
  | succ f ih =>
    intro u v
    have h := ih (u / 2) (v / 2)
    have h2 : (2 : Nat) ^ (f + 1) = 2 ^ f * 2 := Nat.pow_succ ..
    simp only [orWord]
    have hb : max (u % 2) (v % 2) ≤ 1 := by omega
    omega

theorem orWord_disjoint : ∀ f k u v, k ≤ f → u % 2 ^ k = 0 → u < 2 ^ f → v < 2 ^ k →
    orWord f u v = u + v := by
  intro f
  induction f with
  | zero =>
    intro k u v hk hmod hu hv
    interval_cases u
    interval_cases k
    simp only [pow_zero] at hv
    interval_cases v
    rfl
  | succ f ih =>
    intro k u v hk hmod hu hv
    cases k with
    | zero =>
      simp only [pow_zero] at hv
      interval_cases v
      rw [orWord_zero_right (f + 1) u hu]
      omega
    | succ k =>
      obtain ⟨c, hc⟩ := Nat.dvd_of_mod_eq_zero hmod
      have hps : (2 : Nat) ^ (k + 1) = 2 ^ k * 2 := Nat.pow_succ ..
      have hc2 : u = 2 ^ k * c * 2 := by rw [hc, hps]; ring
      have hu2 : u / 2 = 2 ^ k * c := by
        set X := 2 ^ k * c with hX
        omega
      have hmod2 : u / 2 % 2 ^ k = 0 := by rw [hu2]; exact Nat.mul_mod_right ..
      have hfs : (2 : Nat) ^ (f + 1) = 2 ^ f * 2 := Nat.pow_succ ..
      have hul : u / 2 < 2 ^ f := by omega
      have hvl : v / 2 < 2 ^ k := by omega
      have hrec := ih k (u / 2) (v / 2) (by omega) hmod2 hul hvl
      have hue : u % 2 = 0 := by omega
      have hstep : orWord (f + 1) u v = max (u % 2) (v % 2) + 2 * orWord f (u / 2) (v / 2) := rfl
      rw [hstep, hrec, hue, Nat.zero_max]
      omega

theorem andWord_zero_right : ∀ f u, andWord f u 0 = 0 := by
  intro f
  induction f with
  | zero => intro u; rfl
  | succ f ih => intro u; simp [andWord, ih]

theorem andWord_mask : ∀ f k u, k ≤ f → u < 2 ^ f → andWord f u (2 ^ k - 1) = u % 2 ^ k := by
  intro f
  induction f with
  | zero =>
    intro k u hk hu
    interval_cases u
    interval_cases k
    rfl
  | succ f ih =>
    intro k u hk hu
    cases k with
    | zero =>
      have h0 : (2 : Nat) ^ 0 - 1 = 0 := rfl
      rw [h0, andWord_zero_right, pow_zero, Nat.mod_one]
    | succ k =>
      have hps : (2 : Nat) ^ (k + 1) = 2 ^ k * 2 := Nat.pow_succ ..
      have hpk : (0 : Nat) < 2 ^ k := Nat.pos_pow_of_pos k (by norm_num)
      have hm2 : (2 ^ (k + 1) - 1) % 2 = 1 := by omega
      have hd2 : (2 ^ (k + 1) - 1) / 2 = 2 ^ k - 1 := by omega
      have hfs : (2 : Nat) ^ (f + 1) = 2 ^ f * 2 := Nat.pow_succ ..
      have hul : u / 2 < 2 ^ f := by omega
      have hrec := ih k (u / 2) (by omega) hul
      have hstep : andWord (f + 1) u (2 ^ (k + 1) - 1) =
          min (u % 2) ((2 ^ (k + 1) - 1) % 2) + 2 * andWord f (u / 2) ((2 ^ (k + 1) - 1) / 2) := rfl
      rw [hstep, hm2, hd2, hrec, Nat.min_eq_left (by omega)]
      have hd : u % (2 * 2 ^ k) / 2 = u / 2 % 2 ^ k := Nat.mod_mul_right_div_self u 2 (2 ^ k)
      have hmm : u % (2 * 2 ^ k) % 2 = u % 2 := Nat.mod_mul_right_mod u 2 (2 ^ k)
      have hsplit : u % 2 ^ (k + 1) = 2 * (u / 2 % 2 ^ k) + u % 2 := by
        have he : (2 : Nat) ^ (k + 1) = 2 * 2 ^ k := by omega
        rw [he]
        omega
      omega

theorem jsOr_toUint32 (a b : Int) :
    toUint32 (jsOr a b) = orWord 32 (toUint32 a) (toUint32 b) := by
  unfold jsOr
  rw [toUint32_toInt32]
  exact toUint32_coe _ (orWord_lt 32 _ _)

theorem andWord_lt : ∀ f u v, andWord f u v < 2 ^ f := by
  intro f
  induction f with
  | zero => intro u v; simp [andWord]
  | succ f ih =>
    intro u v
    have h := ih (u / 2) (v / 2)
    have h2 : (2 : Nat) ^ (f + 1) = 2 ^ f * 2 := Nat.pow_succ ..
    simp only [andWord]
    have hb : min (u % 2) (v % 2) ≤ 1 := by omega
    omega

theorem jsAnd_toUint32 (a b : Int) :
    toUint32 (jsAnd a b) = andWord 32 (toUint32 a) (toUint32 b) := by
  unfold jsAnd
  rw [toUint32_toInt32]
  exact toUint32_coe _ (andWord_lt 32 _ _)

theorem toInt32_coe_small (n : Nat) (h : n < 2147483648) : toInt32 (n : Int) = n := by
  unfold toInt32
  have he : (n : Int) % 4294967296 = n :=
    Int.emod_eq_of_lt (by positivity) (by exact_mod_cast h.trans (by norm_num))
  simp only [he, if_pos (show (n : Int) < 2147483648 by exact_mod_cast h)]

theorem jsShl_nat (n : Nat) (k : Nat) (h31 : n < 2147483648) (h32 : n * 2 ^ k < 4294967296) :
    toUint32 (jsShl (n : Int) k) = n * 2 ^ k := by
  unfold jsShl
  rw [toUint32_toInt32, toInt32_coe_small n h31]
  have hcast : ((n : Int)) * 2 ^ k = ((n * 2 ^ k : Nat) : Int) := by push_cast; ring
  rw [hcast, toUint32_coe _ h32]

/-- Packing four byte channels with `(a << 24) | (r << 16) | (g << 8) | b`
yields the usual base-256 combination, read back as a uint32 pattern. -/
theorem pack_argb (a r g b : Nat) (ha : a < 256) (hr : r < 256) (hg : g < 256) (hb : b < 256) :
    toUint32 (jsOr (jsOr (jsOr (jsShl (a : Int) 24) (jsShl (r : Int) 16)) (jsShl (g : Int) 8))
      ((b : Int))) = a * 16777216 + r * 65536 + g * 256 + b := by
  have hA : toUint32 (jsShl (a : Int) 24) = a * 16777216 := by
    have h := jsShl_nat a 24 (by omega) (by norm_num; omega)
    norm_num at h
    exact h
  have hR : toUint32 (jsShl (r : Int) 16) = r * 65536 := by
    have h := jsShl_nat r 16 (by omega) (by norm_num; omega)
    norm_num at h
    exact h
  have hG : toUint32 (jsShl (g : Int) 8) = g * 256 := by
    have h := jsShl_nat g 8 (by omega) (by norm_num; omega)
    norm_num at h
    exact h
  have hB : toUint32 ((b : Int)) = b := toUint32_coe b (by omega)
  have h1 : toUint32 (jsOr (jsShl (a : Int) 24) (jsShl (r : Int) 16)) =
      a * 16777216 + r * 65536 := by
    rw [jsOr_toUint32, hA, hR]
    have hmod : (a * 16777216) % 2 ^ 24 = 0 := by
      have he : a * 16777216 = a * 2 ^ 24 := by norm_num
      rw [he]
      exact Nat.mul_mod_left _ _
    exact orWord_disjoint 32 24 _ _ (by norm_num) hmod (by norm_num; omega) (by norm_num; omega)
  have h2 : toUint32 (jsOr (jsOr (jsShl (a : Int) 24) (jsShl (r : Int) 16)) (jsShl (g : Int) 8)) =
      a * 16777216 + r * 65536 + g * 256 := by
    rw [jsOr_toUint32, h1, hG]
    have hmod : (a * 16777216 + r * 65536) % 2 ^ 16 = 0 := by
      have he : a * 16777216 + r * 65536 = (a * 256 + r) * 2 ^ 16 := by
        have hp : (2 : Nat) ^ 16 = 65536 := by norm_num
        rw [hp]
        ring
      rw [he]
      exact Nat.mul_mod_left _ _
    exact orWord_disjoint 32 16 _ _ (by norm_num) hmod (by norm_num; omega) (by norm_num; omega)
  rw [jsOr_toUint32, h2, hB]
  have hmod : (a * 16777216 + r * 65536 + g * 256) % 2 ^ 8 = 0 := by
    have he : a * 16777216 + r * 65536 + g * 256 = (a * 65536 + r * 256 + g) * 2 ^ 8 := by
      have hp : (2 : Nat) ^ 8 = 256 := by norm_num
      rw [hp]
      ring
    rw [he]
    exact Nat.mul_mod_left _ _
  have h3 := orWord_disjoint 32 8 (a * 16777216 + r * 65536 + g * 256) b
    (by norm_num) hmod (by norm_num; omega) (by norm_num; omega)
  omega

/-! ## Facts about hex parsing -/

theorem hex_not_ws (c : Char) (h : isHexDigitChar c = true) : isJsWs c = false := by
  simp only [isHexDigitChar, Bool.or_eq_true, Bool.and_eq_true, decide_eq_true_eq] at h
  simp only [isJsWs, Bool.or_eq_false_iff, decide_eq_false_iff_not]
  omega

theorem hexDigitVal_lt (c : Char) (_h : isHexDigitChar c = true) : hexDigitVal c < 16 := by
  unfold hexDigitVal
  split
  · omega
  · split
    · omega
    · split
      · omega
      · omega

theorem dropWhile_eq_self_of_all {p : Char → Bool} :
    ∀ l : List Char, (∀ c ∈ l, p c = false) → l.dropWhile p = l
  | [], _ => rfl
  | a :: _, h => List.dropWhile_cons_of_neg (by simp [h a (by simp)])

theorem jsTrim_eq_self (l : List Char) (h : ∀ c ∈ l, isJsWs c = false) : jsTrim l = l := by
  unfold jsTrim
  rw [dropWhile_eq_self_of_all l h,
    dropWhile_eq_self_of_all l.reverse (fun c hc => h c (List.mem_reverse.mp hc)),
    List.reverse_reverse]

theorem parse_two_hex (c1 c2 : Char) (h1 : isHexDigitChar c1 = true)
    (h2 : isHexDigitChar c2 = true) :
    parseIntHex [c1, c2] = some ((16 * hexDigitVal c1 + hexDigitVal c2 : Nat) : Int) := by
  have w1 : isJsWs c1 = false := hex_not_ws c1 h1
  have hm : ¬ c1 = '-' := fun hc => by rw [hc] at h1; exact absurd h1 (by decide)
  have hp : ¬ c1 = '+' := fun hc => by rw [hc] at h1; exact absurd h1 (by decide)
  have hx : ¬ c2 = 'x' := fun hc => by rw [hc] at h2; exact absurd h2 (by decide)
  have hX : ¬ c2 = 'X' := fun hc => by rw [hc] at h2; exact absurd h2 (by decide)
  simp only [parseIntHex, w1, List.dropWhile_cons_of_neg, Bool.false_eq_true,
    not_false_iff, List.headD_cons, hm, hp, hx, hX, if_false, or_self, and_false,
    false_or, or_false, List.tail_cons, List.takeWhile_cons_of_pos, h1, h2,
    List.takeWhile_nil, List.isEmpty_cons, List.foldl_cons, List.foldl_nil]
  norm_num
  ring

/-! ## Branch lemmas for `hexToArgb` -/

theorem hexToArgb_three (c1 c2 c3 : Char) (h1 : isHexDigitChar c1 = true)
    (h2 : isHexDigitChar c2 = true) (h3 : isHexDigitChar c3 = true) :
    toUint32 (hexToArgb ['#', c1, c2, c3]) =
      4278190080 + 17 * hexDigitVal c1 * 65536 + 17 * hexDigitVal c2 * 256 +
        17 * hexDigitVal c3 := by
  have htr : jsTrim [c1, c2, c3] = [c1, c2, c3] := by
    refine jsTrim_eq_self _ ?_
    intro c hc
    simp only [List.mem_cons, List.not_mem_nil, or_false] at hc
    rcases hc with rfl | rfl | rfl
    exacts [hex_not_ws _ h1, hex_not_ws _ h2, hex_not_ws _ h3]
  have hbranch : hexToArgb ['#', c1, c2, c3] =
      jsOr (jsOr (jsOr (jsShl 255 24) (jsShl (chan (parseIntHex [c1, c1])) 16))
        (jsShl (chan (parseIntHex [c2, c2])) 8)) (chan (parseIntHex [c3, c3])) := by
    unfold hexToArgb
    rw [show removeFirstHash ['#', c1, c2, c3] = [c1, c2, c3] from rfl, htr]
    rw [if_pos (show ([c1, c2, c3] : List Char).length = 3 from rfl)]
    rfl
  rw [hbranch, parse_two_hex c1 c1 h1 h1, parse_two_hex c2 c2 h2 h2, parse_two_hex c3 c3 h3 h3]
  simp only [chan, Option.getD_some]
  have b1 := hexDigitVal_lt c1 h1
  have b2 := hexDigitVal_lt c2 h2
  have b3 := hexDigitVal_lt c3 h3
  have hpack := pack_argb 255 (16 * hexDigitVal c1 + hexDigitVal c1)
    (16 * hexDigitVal c2 + hexDigitVal c2) (16 * hexDigitVal c3 + hexDigitVal c3)
    (by norm_num) (by omega) (by omega) (by omega)
  have hc255 : ((255 : Nat) : Int) = (255 : Int) := by norm_num
  rw [hc255] at hpack
  rw [hpack]
  omega

theorem hexToArgb_six (c1 c2 c3 c4 c5 c6 : Char) (h1 : isHexDigitChar c1 = true)
    (h2 : isHexDigitChar c2 = true) (h3 : isHexDigitChar c3 = true)
    (h4 : isHexDigitChar c4 = true) (h5 : isHexDigitChar c5 = true)
    (h6 : isHexDigitChar c6 = true) :
    toUint32 (hexToArgb ['#', c1, c2, c3, c4, c5, c6]) =
      4278190080 + (16 * hexDigitVal c1 + hexDigitVal c2) * 65536 +
        (16 * hexDigitVal c3 + hexDigitVal c4) * 256 +
        (16 * hexDigitVal c5 + hexDigitVal c6) := by
  have htr : jsTrim [c1, c2, c3, c4, c5, c6] = [c1, c2, c3, c4, c5, c6] := by
    refine jsTrim_eq_self _ ?_
    intro c hc
    simp only [List.mem_cons, List.not_mem_nil, or_false] at hc
    rcases hc with rfl | rfl | rfl | rfl | rfl | rfl
    exacts [hex_not_ws _ h1, hex_not_ws _ h2, hex_not_ws _ h3, hex_not_ws _ h4,
      hex_not_ws _ h5, hex_not_ws _ h6]
  have hbranch : hexToArgb ['#', c1, c2, c3, c4, c5, c6] =
      jsOr (jsOr (jsOr (jsShl 255 24) (jsShl (chan (parseIntHex [c1, c2])) 16))
        (jsShl (chan (parseIntHex [c3, c4])) 8)) (chan (parseIntHex [c5, c6])) := by
    unfold hexToArgb
    rw [show removeFirstHash ['#', c1, c2, c3, c4, c5, c6] = [c1, c2, c3, c4, c5, c6] from rfl,
      htr]
    rw [if_neg (show ¬ ([c1, c2, c3, c4, c5, c6] : List Char).length = 3 by norm_num),
      if_pos (show ([c1, c2, c3, c4, c5, c6] : List Char).length = 6 from rfl)]
    rfl
  rw [hbranch, parse_two_hex c1 c2 h1 h2, parse_two_hex c3 c4 h3 h4, parse_two_hex c5 c6 h5 h6]
  simp only [chan, Option.getD_some]
  have b1 := hexDigitVal_lt c1 h1
  have b2 := hexDigitVal_lt c2 h2
  have b3 := hexDigitVal_lt c3 h3
  have b4 := hexDigitVal_lt c4 h4
  have b5 := hexDigitVal_lt c5 h5
  have b6 := hexDigitVal_lt c6 h6
  have hpack := pack_argb 255 (16 * hexDigitVal c1 + hexDigitVal c2)
    (16 * hexDigitVal c3 + hexDigitVal c4) (16 * hexDigitVal c5 + hexDigitVal c6)
    (by norm_num) (by omega) (by omega) (by omega)
  have hc255 : ((255 : Nat) : Int) = (255 : Int) := by norm_num
  rw [hc255] at hpack
  rw [hpack]

theorem hexToArgb_eight (c1 c2 c3 c4 c5 c6 c7 c8 : Char) (h1 : isHexDigitChar c1 = true)
    (h2 : isHexDigitChar c2 = true) (h3 : isHexDigitChar c3 = true)
    (h4 : isHexDigitChar c4 = true) (h5 : isHexDigitChar c5 = true)
    (h6 : isHexDigitChar c6 = true) (h7 : isHexDigitChar c7 = true)
    (h8 : isHexDigitChar c8 = true) :
    toUint32 (hexToArgb ['#', c1, c2, c3, c4, c5, c6, c7, c8]) =
      (16 * hexDigitVal c1 + hexDigitVal c2) * 16777216 +
        (16 * hexDigitVal c3 + hexDigitVal c4) * 65536 +
        (16 * hexDigitVal c5 + hexDigitVal c6) * 256 +
        (16 * hexDigitVal c7 + hexDigitVal c8) := by
  have htr : jsTrim [c1, c2, c3, c4, c5, c6, c7, c8] = [c1, c2, c3, c4, c5, c6, c7, c8] := by
    refine jsTrim_eq_self _ ?_
    intro c hc
    simp only [List.mem_cons, List.not_mem_nil, or_false] at hc
    rcases hc with rfl | rfl | rfl | rfl | rfl | rfl | rfl | rfl
    exacts [hex_not_ws _ h1, hex_not_ws _ h2, hex_not_ws _ h3, hex_not_ws _ h4,
      hex_not_ws _ h5, hex_not_ws _ h6, hex_not_ws _ h7, hex_not_ws _ h8]
  have hbranch : hexToArgb ['#', c1, c2, c3, c4, c5, c6, c7, c8] =
      jsOr (jsOr (jsOr (jsShl (chan (parseIntHex [c1, c2])) 24)
        (jsShl (chan (parseIntHex [c3, c4])) 16))
        (jsShl (chan (parseIntHex [c5, c6])) 8)) (chan (parseIntHex [c7, c8])) := by
    unfold hexToArgb
    rw [show removeFirstHash ['#', c1, c2, c3, c4, c5, c6, c7, c8] =
      [c1, c2, c3, c4, c5, c6, c7, c8] from rfl, htr]
    rw [if_neg (show ¬ ([c1, c2, c3, c4, c5, c6, c7, c8] : List Char).length = 3 by norm_num),
      if_neg (show ¬ ([c1, c2, c3, c4, c5, c6, c7, c8] : List Char).length = 6 by norm_num),
      if_pos (show ([c1, c2, c3, c4, c5, c6, c7, c8] : List Char).length = 8 from rfl)]
    rfl
  rw [hbranch, parse_two_hex c1 c2 h1 h2, parse_two_hex c3 c4 h3 h4, parse_two_hex c5 c6 h5 h6,
    parse_two_hex c7 c8 h7 h8]
  simp only [chan, Option.getD_some]
  have b1 := hexDigitVal_lt c1 h1
  have b2 := hexDigitVal_lt c2 h2
  have b3 := hexDigitVal_lt c3 h3
  have b4 := hexDigitVal_lt c4 h4
  have b5 := hexDigitVal_lt c5 h5
  have b6 := hexDigitVal_lt c6 h6
  have b7 := hexDigitVal_lt c7 h7
  have b8 := hexDigitVal_lt c8 h8
  have hpack := pack_argb (16 * hexDigitVal c1 + hexDigitVal c2)
    (16 * hexDigitVal c3 + hexDigitVal c4) (16 * hexDigitVal c5 + hexDigitVal c6)
    (16 * hexDigitVal c7 + hexDigitVal c8) (by omega) (by omega) (by omega) (by omega)
  rw [hpack]

theorem hexToArgb_other (s : List Char) (h3 : (jsTrim (removeFirstHash s)).length ≠ 3)
    (h6 : (jsTrim (removeFirstHash s)).length ≠ 6)
    (h8 : (jsTrim (removeFirstHash s)).length ≠ 8) :
    hexToArgb s = 4278190080 := by
  unfold hexToArgb
  simp only [h3, h6, h8, if_false]

/-! ## Non-termination of the fill loop

`hexToArgb` returns a signed int32 (negative for every color with alpha at
least 0x80), while `Uint32Array` reads are unsigned.  Filling a region that
already holds the fill color therefore passes the `target === replacement`
guard, and every store rewrites the same unsigned value, so region cells keep
matching `target` and keep pushing their neighbours: the stack never
empties. -/

/-- A canvas whose every cell is opaque black `0xFF000000` (as stored by a
`Uint32Array`, i.e. unsigned). -/
def bufBlack : List Nat := List.replicate (W * H) 4278190080

theorem getD_replicate_lt (n i v : Nat) (h : i < n) : (List.replicate n v).getD i 0 = v := by
  rw [List.getD_eq_getElem?_getD, List.getElem?_replicate, if_pos h]
  rfl

theorem floodFillAux_black_none :
    ∀ fuel (stack : List (Int × Int)),
      (∃ p ∈ stack, 0 ≤ p.1 ∧ p.1 < 32 ∧ 0 ≤ p.2 ∧ p.2 < 32) →
      floodFillAux fuel bufBlack 4278190080 (-16777216) stack = none := by
  intro fuel
  induction fuel with
  | zero =>
    intro stack h
    obtain ⟨p, hp, _⟩ := h
    cases stack with
    | nil => simp at hp
    | cons a t => rfl
  | succ fuel ih =>
    intro stack h
    obtain ⟨p, hp, hb⟩ := h
    cases stack with
    | nil => simp at hp
    | cons a t =>
      obtain ⟨cx, cy⟩ := a
      have hW : ((W : Nat) : Int) = 32 := rfl
      have hH : ((H : Nat) : Int) = 32 := rfl
      by_cases hoob : cx < 0 ∨ cy < 0 ∨ ((W : Nat) : Int) ≤ cx ∨ ((H : Nat) : Int) ≤ cy
      · have hpt : p ∈ t := by
          rcases List.mem_cons.mp hp with heq | ht
          · exfalso
            rw [heq] at hb
            rw [hW, hH] at hoob
            simp only at hb
            omega
          · exact ht
        show floodFillAux (fuel + 1) bufBlack 4278190080 (-16777216) ((cx, cy) :: t) = none
        rw [show floodFillAux (fuel + 1) bufBlack 4278190080 (-16777216) ((cx, cy) :: t) =
          if cx < 0 ∨ cy < 0 ∨ ((W : Nat) : Int) ≤ cx ∨ ((H : Nat) : Int) ≤ cy then
            floodFillAux fuel bufBlack 4278190080 (-16777216) t
          else
            if ((bufBlack.getD (toIndex cx cy).toNat 0 : Nat) : Int) ≠ 4278190080 then
              floodFillAux fuel bufBlack 4278190080 (-16777216) t
            else
              floodFillAux fuel (bufBlack.set (toIndex cx cy).toNat (toUint32 (-16777216)))
                4278190080 (-16777216)
                ((cx, cy - 1) :: (cx, cy + 1) :: (cx - 1, cy) :: (cx + 1, cy) :: t) from rfl]
        rw [if_pos hoob]
        exact ih t ⟨p, hpt, hb⟩
      · push_neg at hoob
        obtain ⟨h1, h2, h3, h4⟩ := hoob
        rw [hW] at h3
        rw [hH] at h4
        have hidx : (toIndex cx cy).toNat < W * H := by
          unfold toIndex
          rw [hW]
          simp only [W, H]
          omega
        have hval : bufBlack.getD (toIndex cx cy).toNat 0 = 4278190080 :=
          getD_replicate_lt _ _ _ hidx
        show floodFillAux (fuel + 1) bufBlack 4278190080 (-16777216) ((cx, cy) :: t) = none
        rw [show floodFillAux (fuel + 1) bufBlack 4278190080 (-16777216) ((cx, cy) :: t) =
          if cx < 0 ∨ cy < 0 ∨ ((W : Nat) : Int) ≤ cx ∨ ((H : Nat) : Int) ≤ cy then
            floodFillAux fuel bufBlack 4278190080 (-16777216) t
          else
            if ((bufBlack.getD (toIndex cx cy).toNat 0 : Nat) : Int) ≠ 4278190080 then
              floodFillAux fuel bufBlack 4278190080 (-16777216) t
            else
              floodFillAux fuel (bufBlack.set (toIndex cx cy).toNat (toUint32 (-16777216)))
                4278190080 (-16777216)
                ((cx, cy - 1) :: (cx, cy + 1) :: (cx - 1, cy) :: (cx + 1, cy) :: t) from rfl]
        rw [if_neg (by rw [hW]; rw [hH]; push_neg; exact ⟨h1, h2, h3, h4⟩)]
        rw [if_neg (by rw [hval]; norm_num)]
        rw [show bufBlack.set (toIndex cx cy).toNat (toUint32 (-16777216)) = bufBlack from by
          unfold bufBlack
          rw [show toUint32 (-16777216) = 4278190080 from by decide]
          exact List.set_replicate_self]
        refine ih _ ?_
        by_cases hcy : 0 < cy
        · exact ⟨(cx, cy - 1), by simp, by simp only; omega⟩
        · exact ⟨(cx, cy + 1), by simp, by simp only; omega⟩

/-- C1: the claim says `floodFill` always terminates with work bounded by
W*H.  It is false of the code — a genuine bug: on an all-black canvas, the
call `floodFill(buf, 0, 0, current, hexToArgb("#000000"))` that
`handlePaintAt` makes receives `target = 4278190080` (unsigned read) and
`replacement = -16777216` (signed int32), which are different JS numbers
denoting the same 32-bit color; the guard does not fire, every store leaves
the buffer unchanged, and the stack never empties, so no amount of fuel
makes the loop finish. -/
theorem C1_floodFill_black_diverges (fuel : Nat) :
    floodFill fuel bufBlack 0 0 4278190080 (-16777216) = none := by
  unfold floodFill
  rw [if_neg (by norm_num : ¬(4278190080 : Int) = -16777216)]
  refine floodFillAux_black_none fuel [(0, 0)] ?_
  exact ⟨(0, 0), by simp, by norm_num⟩

/-- C2: the claim says fill is idempotent and that filling a pixel that
already has the replacement color is a true no-op.  It is false of the
code — the same signed/unsigned bug: applying the fill tool at (0,0) with
color `#000000` to a canvas that is already opaque black does not return an
unchanged buffer; the paint step never returns at all, for any fuel. -/
theorem C2_fill_on_same_color_diverges (fuel : Nat) :
    handlePaintAt fuel Tool.fill 1 0 0 true
      ⟨bufBlack, [], [], ['#', '0', '0', '0', '0', '0', '0']⟩ = none := by
  have hcur : bufBlack.getD (toIndex 0 0).toNat 0 = 4278190080 :=
    getD_replicate_lt _ _ _ (by norm_num [W, H, toIndex])
  have hargb : hexToArgb ['#', '0', '0', '0', '0', '0', '0'] = -16777216 := by decide
  show (floodFill fuel bufBlack 0 0
      ((bufBlack.getD (toIndex 0 0).toNat 0 : Nat) : Int)
      (hexToArgb ['#', '0', '0', '0', '0', '0', '0'])).map _ = none
  rw [hcur, hargb]
  rw [show ((4278190080 : Nat) : Int) = (4278190080 : Int) from rfl]
  unfold floodFill
  rw [if_neg (by norm_num : ¬(4278190080 : Int) = -16777216)]
  rw [floodFillAux_black_none fuel [(0, 0)] ⟨(0, 0), by simp, by norm_num⟩]
  rfl

/-- C3: the claim says the eyedropper leaves the buffer untouched and never
pushes a history entry, including on pointer-down.  The first half is true,
but the source calls `pushHistory(prev)` before dispatching on the tool, so
an eyedropper pointer-down (withHistory = true) does push a snapshot and
clears the redo stack: starting from an all-transparent buffer with empty
undo stack and a non-empty redo stack, the pointer-down leaves the pixels
equal to the input but produces undo stack `[prev]` and redo stack `[]`
(and picks color `#000000` from the transparent pixel). -/
theorem C3_eyedropper_pointer_down_pushes_history :
    handlePaintAt 0 Tool.eyedropper 1 3 4 true
      ⟨List.replicate (W * H) 0, [], [List.replicate (W * H) 5],
        ['#', 'a', 'b', 'c', 'd', 'e', 'f']⟩ =
    some ⟨List.replicate (W * H) 0, [List.replicate (W * H) 0], [],
      ['#', '0', '0', '0', '0', '0', '0']⟩ := by decide

/-- C4 counterexample: the claim says every malformed color string yields
opaque black `0xFF000000`.  But `parseInt` parses the longest hex prefix of
each channel slice and `NaN << k` is 0, so the malformed 3-digit string
`#1x2` yields `0xFF110022` (4279304226), not `0xFF000000` (4278190080). -/
theorem C4_malformed_not_black :
    toUint32 (hexToArgb ['#', '1', 'x', '2']) = 4279304226 ∧
      toUint32 (hexToArgb ['#', '1', 'x', '2']) ≠ 4278190080 := by decide

/-- C4 (amended): `hexToArgb` maps `#` followed by 3, 6 or 8 hex digits to
the packed ARGB value those digits denote, forcing alpha to 0xFF in the 3-
and 6-digit forms (a 3-digit channel `c` denotes `0x11 * c`); every string
whose text after removing the first `#` and trimming does not have length
3, 6 or 8 yields opaque black 4278190080; it never raises an error (it is
total).  Strings of length 3, 6, or 8 with non-hex characters are instead
parsed channel-wise with unparseable channels treated as zero (see the
counterexample), so those are excluded here. -/
theorem C4_hexToArgb_amended :
    (∀ c1 c2 c3 : Char, isHexDigitChar c1 = true → isHexDigitChar c2 = true →
      isHexDigitChar c3 = true →
      toUint32 (hexToArgb ['#', c1, c2, c3]) =
        4278190080 + 17 * hexDigitVal c1 * 65536 + 17 * hexDigitVal c2 * 256 +
          17 * hexDigitVal c3) ∧
    (∀ c1 c2 c3 c4 c5 c6 : Char, isHexDigitChar c1 = true → isHexDigitChar c2 = true →
      isHexDigitChar c3 = true → isHexDigitChar c4 = true → isHexDigitChar c5 = true →
      isHexDigitChar c6 = true →
      toUint32 (hexToArgb ['#', c1, c2, c3, c4, c5, c6]) =
        4278190080 + (16 * hexDigitVal c1 + hexDigitVal c2) * 65536 +
          (16 * hexDigitVal c3 + hexDigitVal c4) * 256 +
          (16 * hexDigitVal c5 + hexDigitVal c6)) ∧
    (∀ c1 c2 c3 c4 c5 c6 c7 c8 : Char, isHexDigitChar c1 = true →
      isHexDigitChar c2 = true → isHexDigitChar c3 = true → isHexDigitChar c4 = true →
      isHexDigitChar c5 = true → isHexDigitChar c6 = true → isHexDigitChar c7 = true →
      isHexDigitChar c8 = true →
      toUint32 (hexToArgb ['#', c1, c2, c3, c4, c5, c6, c7, c8]) =
        (16 * hexDigitVal c1 + hexDigitVal c2) * 16777216 +
          (16 * hexDigitVal c3 + hexDigitVal c4) * 65536 +
          (16 * hexDigitVal c5 + hexDigitVal c6) * 256 +
          (16 * hexDigitVal c7 + hexDigitVal c8)) ∧
    (∀ s : List Char, (jsTrim (removeFirstHash s)).length ≠ 3 →
      (jsTrim (removeFirstHash s)).length ≠ 6 → (jsTrim (removeFirstHash s)).length ≠ 8 →
      toUint32 (hexToArgb s) = 4278190080) := by
  refine ⟨hexToArgb_three, hexToArgb_six, hexToArgb_eight, ?_⟩
  intro s h3 h6 h8
  rw [hexToArgb_other s h3 h6 h8]
  decide

/-- C4 witness: the amended theorem applied to `#123`, `#00ff00`,
`#80ff0000`, and the length-2 garbage `#zz`. -/
theorem C4_hexToArgb_amended_witness :
    toUint32 (hexToArgb ['#', '1', '2', '3']) = 4279312947 ∧
      toUint32 (hexToArgb ['#', '0', '0', 'f', 'f', '0', '0']) = 4278255360 ∧
      toUint32 (hexToArgb ['#', '8', '0', 'f', 'f', '0', '0', '0', '0']) = 2164195328 ∧
      toUint32 (hexToArgb ['#', 'z', 'z']) = 4278190080 := by
  refine ⟨?_, ?_, ?_, ?_⟩
  · rw [C4_hexToArgb_amended.1 '1' '2' '3' (by decide) (by decide) (by decide)]
    decide
  · rw [C4_hexToArgb_amended.2.1 '0' '0' 'f' 'f' '0' '0' (by decide) (by decide) (by decide)
      (by decide) (by decide) (by decide)]
    decide
  · rw [C4_hexToArgb_amended.2.2.1 '8' '0' 'f' 'f' '0' '0' '0' '0' (by decide) (by decide)
      (by decide) (by decide) (by decide) (by decide) (by decide) (by decide)]
    decide
  · exact C4_hexToArgb_amended.2.2.2 ['#', 'z', 'z'] (by decide) (by decide) (by decide)

/-! ## The brush footprint (pencil/eraser) -/

theorem setPixel_length (buf : List Nat) (x y : Int) (v : Int) :
    (setPixel buf x y v).length = buf.length := by
  unfold setPixel
  split
  · rfl
  · exact List.length_set ..

/-- Reading an in-grid cell after one `setPixel`: changed exactly when the
store hit that cell. -/
theorem getD_setPixel (buf : List Nat) (hlen : buf.length = W * H) (a b v : Int)
    (x' y' : Nat) (hx : x' < W) (hy : y' < H) :
    (setPixel buf a b v).getD (y' * W + x') 0 =
      if a = (x' : Int) ∧ b = (y' : Int) then toUint32 v
      else buf.getD (y' * W + x') 0 := by
  have hW32 : W = 32 := rfl
  have hWc : ((W : Nat) : Int) = 32 := rfl
  have hHc : ((H : Nat) : Int) = 32 := rfl
  unfold setPixel
  by_cases hoob : a < 0 ∨ b < 0 ∨ ((W : Nat) : Int) ≤ a ∨ ((H : Nat) : Int) ≤ b
  · rw [if_pos hoob, if_neg ?_]
    rintro ⟨rfl, rfl⟩
    rw [hWc, hHc] at hoob
    rw [hW32] at hx
    have hH32 : H = 32 := rfl
    rw [hH32] at hy
    omega
  · rw [if_neg hoob]
    push_neg at hoob
    obtain ⟨h1, h2, h3, h4⟩ := hoob
    rw [hWc] at h3
    rw [hHc] at h4
    by_cases heq : a = (x' : Int) ∧ b = (y' : Int)
    · obtain ⟨ha, hb⟩ := heq
      rw [if_pos ⟨ha, hb⟩]
      have hix : (toIndex a b).toNat = y' * W + x' := by
        unfold toIndex
        rw [hWc, ha, hb]
        rw [hW32]
        omega
      have hilt : y' * W + x' < buf.length := by
        rw [hlen]
        have hH32 : H = 32 := rfl
        rw [hW32] at hx ⊢
        rw [hH32] at hy
        omega
      rw [hix, List.getD_eq_getElem?_getD, List.getElem?_set_self (by omega), Option.getD_some]
    · rw [if_neg heq]
      have hne : (toIndex a b).toNat ≠ y' * W + x' := by
        unfold toIndex
        rw [hWc]
        intro hcon
        apply heq
        have hH32 : H = 32 := rfl
        rw [hW32] at hx hcon
        rw [hH32] at hy
        constructor <;> omega
      rw [List.getD_eq_getElem?_getD, List.getElem?_set_ne hne, ← List.getD_eq_getElem?_getD]

/-- One inner brush row: the cell changes exactly when some column offset
hits it. -/
theorem foldRow_getD (is : List Nat) (buf : List Nat) (hlen : buf.length = W * H)
    (x yy rr v : Int) (x' y' : Nat) (hx : x' < W) (hy : y' < H) :
    ((is.foldl (fun b2 (ii : Nat) => setPixel b2 (x + (ii : Int) - rr) yy v) buf).getD
      (y' * W + x') 0) =
      if ∃ ii ∈ is, x + (ii : Int) - rr = (x' : Int) ∧ yy = (y' : Int) then toUint32 v
      else buf.getD (y' * W + x') 0 := by
  induction is generalizing buf with
  | nil => simp
  | cons i tl ih =>
    rw [List.foldl_cons,
      ih (setPixel buf (x + (i : Int) - rr) yy v) (by rw [setPixel_length]; exact hlen)]
    by_cases htl : ∃ ii ∈ tl, x + (ii : Int) - rr = (x' : Int) ∧ yy = (y' : Int)
    · obtain ⟨ii, hmem, hcond⟩ := htl
      rw [if_pos ⟨ii, hmem, hcond⟩, if_pos ⟨ii, List.mem_cons_of_mem _ hmem, hcond⟩]
    · rw [if_neg htl, getD_setPixel buf hlen _ _ _ _ _ hx hy]
      by_cases hh : x + (i : Int) - rr = (x' : Int) ∧ yy = (y' : Int)
      · rw [if_pos hh, if_pos ⟨i, List.mem_cons_self .., hh⟩]
      · rw [if_neg hh, if_neg ?_]
        rintro ⟨ii, hmem, hcond⟩
        rcases List.mem_cons.mp hmem with heq | hmt
        · exact hh (heq ▸ hcond)
        · exact htl ⟨ii, hmt, hcond⟩

/-- The full nested brush fold: the cell changes exactly when some
(row, column) offset pair hits it. -/
theorem foldRows_getD (js is : List Nat) (buf : List Nat) (hlen : buf.length = W * H)
    (x y rr v : Int) (x' y' : Nat) (hx : x' < W) (hy : y' < H) :
    ((js.foldl (fun b (jj : Nat) =>
        is.foldl (fun b2 (ii : Nat) => setPixel b2 (x + (ii : Int) - rr) (y + (jj : Int) - rr) v) b)
      buf).getD (y' * W + x') 0) =
      if ∃ jj ∈ js, ∃ ii ∈ is,
          x + (ii : Int) - rr = (x' : Int) ∧ y + (jj : Int) - rr = (y' : Int) then toUint32 v
      else buf.getD (y' * W + x') 0 := by
  induction js generalizing buf with
  | nil => simp
  | cons j tl ih =>
    rw [List.foldl_cons]
    have hlen2 : (is.foldl (fun b2 (ii : Nat) =>
        setPixel b2 (x + (ii : Int) - rr) (y + (j : Int) - rr) v) buf).length = W * H := by
      clear ih
      induction is generalizing buf with
      | nil => exact hlen
      | cons i tli ihi =>
        rw [List.foldl_cons]
        exact ihi (setPixel buf (x + (i : Int) - rr) (y + (j : Int) - rr) v)
          (by rw [setPixel_length]; exact hlen)
    rw [ih _ hlen2]
    by_cases htl : ∃ jj ∈ tl, ∃ ii ∈ is,
        x + (ii : Int) - rr = (x' : Int) ∧ y + (jj : Int) - rr = (y' : Int)
    · obtain ⟨jj, hmem, hrest⟩ := htl
      rw [if_pos ⟨jj, hmem, hrest⟩, if_pos ⟨jj, List.mem_cons_of_mem _ hmem, hrest⟩]
    · rw [if_neg htl, foldRow_getD is buf hlen _ _ _ _ _ _ hx hy]
      by_cases hh : ∃ ii ∈ is, x + (ii : Int) - rr = (x' : Int) ∧ y + (j : Int) - rr = (y' : Int)
      · rw [if_pos hh, if_pos ⟨j, List.mem_cons_self .., hh⟩]
      · rw [if_neg hh, if_neg ?_]
        rintro ⟨jj, hmem, hrest⟩
        rcases List.mem_cons.mp hmem with heq | hmt
        · exact hh (heq ▸ hrest)
        · exact htl ⟨jj, hmt, hrest⟩

/-- Here `drawBrush` is characterised cell by cell: an in-grid cell receives
`toUint32 argb` exactly when it lies in the half-open square footprint
`[x - r, x + brush - r) × [y - r, y + brush - r)` with `r = brush / 2`,
and keeps its old value otherwise. -/
theorem drawBrush_getD (brush : Nat) (buf : List Nat) (hlen : buf.length = W * H)
    (x y v : Int) (x' y' : Nat) (hx : x' < W) (hy : y' < H) :
    (drawBrush brush buf x y v).getD (y' * W + x') 0 =
      if x - ((brush / 2 : Nat) : Int) ≤ (x' : Int) ∧
          (x' : Int) < x + (brush : Int) - ((brush / 2 : Nat) : Int) ∧
          y - ((brush / 2 : Nat) : Int) ≤ (y' : Int) ∧
          (y' : Int) < y + (brush : Int) - ((brush / 2 : Nat) : Int) then toUint32 v
      else buf.getD (y' * W + x') 0 := by
  unfold drawBrush
  rw [foldRows_getD (List.range brush) (List.range brush) buf hlen x y _ v x' y' hx hy]
  have hiff : (∃ jj ∈ List.range brush, ∃ ii ∈ List.range brush,
      x + (ii : Int) - ((brush / 2 : Nat) : Int) = (x' : Int) ∧
      y + (jj : Int) - ((brush / 2 : Nat) : Int) = (y' : Int)) ↔
      (x - ((brush / 2 : Nat) : Int) ≤ (x' : Int) ∧
        (x' : Int) < x + (brush : Int) - ((brush / 2 : Nat) : Int) ∧
        y - ((brush / 2 : Nat) : Int) ≤ (y' : Int) ∧
        (y' : Int) < y + (brush : Int) - ((brush / 2 : Nat) : Int)) := by
    constructor
    · rintro ⟨jj, hjj, ii, hii, h1, h2⟩
      rw [List.mem_range] at hjj hii
      refine ⟨?_, ?_, ?_, ?_⟩ <;> omega
    · rintro ⟨ha, hb, hc, hd⟩
      exact ⟨((y' : Int) - y + ((brush / 2 : Nat) : Int)).toNat,
        List.mem_range.mpr (by omega),
        ((x' : Int) - x + ((brush / 2 : Nat) : Int)).toNat,
        List.mem_range.mpr (by omega), by omega, by omega⟩
  rw [if_congr hiff rfl rfl]

/-- C5 counterexample: the claim says the pencil writes the color forced
fully opaque (alpha 255).  But the forcing happens only inside `hexToArgb`
for 3- and 6-digit forms: with the 8-digit color `#00112233` the pencil at
(0,0) writes `0x00112233`, whose alpha channel is 0, not 255. -/
theorem C5_pencil_alpha_not_forced :
    (handlePaintAt 0 Tool.pencil 1 0 0 true
        ⟨List.replicate (W * H) 0, [], [], ['#', '0', '0', '1', '1', '2', '2', '3', '3']⟩).map
      (fun s' => s'.pixels.getD 0 0 / 16777216) = some 0 := by decide

/-- C5 (amended): for every state, brush size in {1, 2, 4} and target cell
(x, y), the pencil writes `hexToArgb(color)` — fully opaque for 3/6-digit
and malformed color strings, but with the given alpha for 8-digit forms —
into exactly the in-grid cells of the half-open square footprint
`[x - s/2, x + s - s/2) × [y - s/2, y + s - s/2)` (cells outside the grid
are silently clipped by `setPixel`, and reading is over in-grid cells), and
leaves every other cell unchanged. -/
theorem C5_pencil_footprint (s : EState) (brush : Nat)
    (_hb : brush = 1 ∨ brush = 2 ∨ brush = 4) (x y : Int) (x' y' : Nat)
    (hx : x' < W) (hy : y' < H) (hlen : s.pixels.length = W * H) :
    ∃ s', handlePaintAt 0 Tool.pencil brush x y true s = some s' ∧
      s'.pixels.getD (y' * W + x') 0 =
        (if x - ((brush / 2 : Nat) : Int) ≤ (x' : Int) ∧
            (x' : Int) < x + (brush : Int) - ((brush / 2 : Nat) : Int) ∧
            y - ((brush / 2 : Nat) : Int) ≤ (y' : Int) ∧
            (y' : Int) < y + (brush : Int) - ((brush / 2 : Nat) : Int)
         then toUint32 (hexToArgb s.color)
         else s.pixels.getD (y' * W + x') 0) := by
  refine ⟨_, rfl, ?_⟩
  show (drawBrush brush s.pixels x y
      (if Tool.pencil = Tool.eraser then 0 else hexToArgb s.color)).getD (y' * W + x') 0 = _
  rw [show (if Tool.pencil = Tool.eraser then (0 : Int) else hexToArgb s.color) =
    hexToArgb s.color from rfl]
  exact drawBrush_getD brush s.pixels hlen x y (hexToArgb s.color) x' y' hx hy

/-- C5 witness: pencil with brush 1 and color `#3b82f6` at (5,5) on a fresh
transparent canvas; the footprint cell (5,5) receives `0xFF3B82F6` and the
cell (0,0) outside the footprint keeps its value. -/
theorem C5_pencil_footprint_witness :
    ∃ s', handlePaintAt 0 Tool.pencil 1 5 5 true
        ⟨List.replicate (W * H) 0, [], [], ['#', '3', 'b', '8', '2', 'f', '6']⟩ = some s' ∧
      s'.pixels.getD (5 * W + 5) 0 = 4282090230 ∧ s'.pixels.getD (0 * W + 0) 0 = 0 := by
  obtain ⟨s', hs, hval⟩ := C5_pencil_footprint
    ⟨List.replicate (W * H) 0, [], [], ['#', '3', 'b', '8', '2', 'f', '6']⟩ 1 (Or.inl rfl)
    5 5 5 5 (by decide) (by decide) (by simp)
  obtain ⟨s'', hs2, hval2⟩ := C5_pencil_footprint
    ⟨List.replicate (W * H) 0, [], [], ['#', '3', 'b', '8', '2', 'f', '6']⟩ 1 (Or.inl rfl)
    5 5 0 0 (by decide) (by decide) (by simp)
  refine ⟨s', hs, ?_, ?_⟩
  · rw [hval, if_pos (by norm_num)]
    decide
  · have hss : s'' = s' := by rw [hs] at hs2; exact (Option.some.inj hs2).symm
    rw [← hss, hval2, if_neg (by norm_num)]
    decide

/-- C6 counterexample: the claim says an out-of-bounds read returns 0.  The
code has no bounds-guarded read: `prev[toIndex(x, y)]` is raw indexing, so
(x, y) = (-1, 5) — outside the grid — computes index 5*32-1 = 159 and reads
the in-range cell (31, 4), here holding 7; and (0, -1) computes index -32,
which is `undefined` on a `Uint32Array`, not 0. -/
theorem C6_oob_read_aliases :
    readPixel ((List.replicate (W * H) 0).set 159 7) (-1) 5 = some 7 ∧
      readPixel (List.replicate (W * H) 0) 0 (-1) = none := by decide

/-- C6 (amended): writing a value at any (x, y) outside [0,W) × [0,H) via
`setPixel` leaves every cell of the buffer unchanged and never faults;
reading, however, is unguarded raw indexing `prev[y*W + x]`, which for
out-of-bounds (x, y) either aliases an in-range cell (when 0 ≤ y·W+x < W·H)
or yields `undefined` — not 0 (see the counterexample).  In the app all
reads are pre-clamped in-bounds by `cssToPixel`. -/
theorem C6_setPixel_oob_noop (buf : List Nat) (x y : Int) (v : Int)
    (h : x < 0 ∨ y < 0 ∨ ((W : Nat) : Int) ≤ x ∨ ((H : Nat) : Int) ≤ y) :
    setPixel buf x y v = buf := by
  unfold setPixel
  rw [if_pos h]

/-- C6 witness: a write at (-1, 0) is a no-op on a concrete buffer. -/
theorem C6_setPixel_oob_noop_witness :
    setPixel [1, 2, 3] (-1) 0 5 = [1, 2, 3] :=
  C6_setPixel_oob_noop [1, 2, 3] (-1) 0 5 (Or.inl (by norm_num))

/-! ## History: cap, undo, redo -/

theorem getLast?_drop_of_lt {α : Type} (l : List α) (k : Nat) (h : k < l.length) :
    (l.drop k).getLast? = l.getLast? := by
  rw [List.getLast?_eq_getElem? , List.getLast?_eq_getElem?, List.length_drop,
    List.getElem?_drop]
  congr 1
  omega

theorem pushHistory_getLast (s : EState) (prev : List Nat) :
    (pushHistory s prev).history.getLast? = some prev := by
  unfold pushHistory
  simp only
  split
  · rename_i hgt
    have hk : (s.history ++ [prev]).length - MAX_HISTORY < (s.history ++ [prev]).length := by
      unfold MAX_HISTORY at hgt ⊢
      omega
    rw [getLast?_drop_of_lt _ _ hk]
    exact List.getLast?_concat _
  · exact List.getLast?_concat _

theorem undo_spec (s : EState) (last : List Nat) (h : s.history.getLast? = some last) :
    undo s = ⟨last, s.history.dropLast, s.pixels :: s.future, s.color⟩ := by
  unfold undo
  rw [h]

theorem redo_spec (s : EState) (p : List Nat) (rest : List (List Nat)) (h : s.future = p :: rest) :
    redo s = ⟨p, s.history ++ [s.pixels], rest, s.color⟩ := by
  unfold redo
  rw [h]

theorem pencilAt_eq (brush : Nat) (p : Int × Int) (wh : Bool) (s : EState) :
    pencilAt brush p wh s =
      { (if wh then pushHistory s s.pixels else s) with
        pixels := drawBrush brush s.pixels p.1 p.2 (hexToArgb s.color) } := rfl

theorem movesFold_frame (moves : List (Int × Int)) (brush : Nat) :
    ∀ s : EState,
      (moves.foldl (fun acc p => pencilAt brush p false acc) s).history = s.history ∧
      (moves.foldl (fun acc p => pencilAt brush p false acc) s).future = s.future ∧
      (moves.foldl (fun acc p => pencilAt brush p false acc) s).color = s.color := by
  induction moves with
  | nil => intro s; exact ⟨rfl, rfl, rfl⟩
  | cons m tl ih =>
    intro s
    rw [List.foldl_cons]
    obtain ⟨h1, h2, h3⟩ := ih (pencilAt brush m false s)
    rw [h1, h2, h3]
    rw [pencilAt_eq]
    exact ⟨rfl, rfl, rfl⟩

theorem applyStroke_frame (s : EState) (st : Stroke) :
    (applyStroke s st).history.getLast? = some s.pixels ∧ (applyStroke s st).future = [] := by
  unfold applyStroke
  simp only
  obtain ⟨h1, h2, _⟩ := movesFold_frame st.moves st.brush
    (pencilAt st.brush st.start true { s with color := st.color })
  rw [h1, h2, pencilAt_eq]
  constructor
  · exact pushHistory_getLast { s with color := st.color } s.pixels
  · rfl

/-- C7: after any number of pencil stroke sessions followed by one more
session (each session pushing exactly one history entry at pointer-down and
none during its moves), `undo` restores the pixel buffer to its exact state
before the last session, and `redo` after that undo restores the last
session's result, value-for-value. -/
theorem C7_pencil_undo_redo (s0 : EState) (pre : List Stroke) (last : Stroke) :
    (undo (applyStroke (applyStrokes s0 pre) last)).pixels =
        (applyStrokes s0 pre).pixels ∧
      (redo (undo (applyStroke (applyStrokes s0 pre) last))).pixels =
        (applyStroke (applyStrokes s0 pre) last).pixels := by
  obtain ⟨hlast, hfut⟩ := applyStroke_frame (applyStrokes s0 pre) last
  rw [undo_spec _ _ hlast]
  constructor
  · rfl
  · rw [redo_spec _ (applyStroke (applyStrokes s0 pre) last).pixels _ rfl]

/-- C8: a `pushHistory` commit leaves at most `MAX_HISTORY = 200` undo
snapshots, keeping a suffix of the appended stack (most recent retained,
oldest evicted first) of length `min (old + 1) 200`, and clears the redo
stack unconditionally; `undo` only ever leaves the redo stack alone or
prepends the displaced buffer to it, and `redo` only ever consumes its
head — neither wipes it. -/
theorem C8_history_cap (s : EState) (prev : List Nat) :
    (pushHistory s prev).history.length ≤ MAX_HISTORY ∧
      (pushHistory s prev).history.length = min (s.history.length + 1) MAX_HISTORY ∧
      (pushHistory s prev).history <:+ (s.history ++ [prev]) ∧
      (pushHistory s prev).future = [] ∧
      ((undo s).future = s.future ∨ (undo s).future = s.pixels :: s.future) ∧
      ((redo s).future = s.future ∨ (redo s).future = s.future.tail) := by
  refine ⟨?_, ?_, ?_, rfl, ?_, ?_⟩
  · unfold pushHistory
    simp only
    split
    · rename_i hgt
      simp only [List.length_drop, List.length_append, List.length_cons, List.length_nil]
        at hgt ⊢
      unfold MAX_HISTORY at hgt ⊢
      omega
    · rename_i hle
      simp only [List.length_append, List.length_cons, List.length_nil] at hle ⊢
      unfold MAX_HISTORY at hle ⊢
      omega
  · unfold pushHistory
    simp only
    split
    · rename_i hgt
      simp only [List.length_drop, List.length_append, List.length_cons, List.length_nil]
        at hgt ⊢
      unfold MAX_HISTORY at hgt ⊢
      omega
    · rename_i hle
      simp only [List.length_append, List.length_cons, List.length_nil] at hle ⊢
      unfold MAX_HISTORY at hle ⊢
      omega
  · unfold pushHistory
    simp only
    split
    · exact ⟨(s.history ++ [prev]).take ((s.history ++ [prev]).length - MAX_HISTORY),
        List.take_append_drop ..⟩
    · exact List.suffix_refl _
  · cases h : s.history.getLast? with
    | none =>
      left
      unfold undo
      rw [h]
    | some last =>
      right
      rw [undo_spec s last h]
  · cases h : s.future with
    | nil =>
      left
      have hr : redo s = s := by
        unfold redo
        rw [h]
      rw [hr]
      exact h
    | cons p rest =>
      right
      rw [redo_spec s p rest h]
      rfl

/-- C9: a failed image decode (the `await` on the image load rejects)
propagates as an error before `pushHistory` and `setPixels` run, so no new
editor state is produced and the pixel buffer and both history stacks stay
as they were; on a successful decode, one history entry (the pre-import
buffer) is pushed, the redo stack is cleared and the buffer is replaced,
all strictly after the decode.  The browser decode-and-resample step is a
host capability and enters the model as the `Except` argument. -/
theorem C9_import_failure_no_change (s : EState) (e : String) (d : List Nat) :
    importFromFile s (Except.error e) = Except.error e ∧
      importFromFile s (Except.ok d) =
        Except.ok { pushHistory s s.pixels with pixels := imageDataToPixels d W H } :=
  ⟨rfl, rfl⟩

/-! ## Eyedropper color extraction -/

theorem getD_lt_of_all (l : List Nat) (i : Nat) (B : Nat) (hB : 0 < B)
    (h : ∀ v ∈ l, v < B) : l.getD i 0 < B := by
  rw [List.getD_eq_getElem?_getD]
  cases hel : l[i]? with
  | none => simpa using hB
  | some v => exact h v (List.getElem?_mem hel)

/-- Extracting a byte: `(picked >>> k) & 0xff` equals `picked / 2^k % 256`. -/
theorem shr_and_byte (picked : Nat) (hp : picked < 4294967296) (k : Nat) :
    toUint32 (jsAnd (jsShrU (picked : Int) k) 255) = picked / 2 ^ k % 256 := by
  unfold jsShrU
  rw [toUint32_coe picked hp, jsAnd_toUint32,
    toUint32_coe _ (by have := Nat.div_le_self picked (2 ^ k); omega),
    show toUint32 (255 : Int) = 2 ^ 8 - 1 from by decide,
    andWord_mask 32 8 _ (by norm_num) (by have := Nat.div_le_self picked (2 ^ k); omega)]
  norm_num

/-- Extracting the low byte: `picked & 0xff` equals `picked % 256`. -/
theorem and_byte (picked : Nat) (hp : picked < 4294967296) :
    toUint32 (jsAnd ((picked : Int)) 255) = picked % 256 := by
  rw [jsAnd_toUint32, toUint32_coe picked hp,
    show toUint32 (255 : Int) = 2 ^ 8 - 1 from by decide,
    andWord_mask 32 8 _ (by norm_num) (by omega)]
  norm_num

/-- Every byte's two-character lowercase hex form: its two characters are
hex digits, denote the byte, and `byteToHex n` is exactly that pair. -/
theorem byteToHex_facts : ∀ n, n < 256 →
    isHexDigitChar ((byteToHex n).getD 0 ' ') = true ∧
    isHexDigitChar ((byteToHex n).getD 1 ' ') = true ∧
    16 * hexDigitVal ((byteToHex n).getD 0 ' ') + hexDigitVal ((byteToHex n).getD 1 ' ') = n ∧
    byteToHex n = [(byteToHex n).getD 0 ' ', (byteToHex n).getD 1 ' '] := by decide

/-- Rewriting `pickColor` in terms of the picked value's byte channels. -/
theorem pickColor_bytes (picked : Nat) (hp : picked < 4294967296) :
    pickColor picked = '#' :: (byteToHex (picked / 65536 % 256) ++
      byteToHex (picked / 256 % 256) ++ byteToHex (picked % 256)) := by
  unfold pickColor
  rw [shr_and_byte picked hp 16, shr_and_byte picked hp 8, and_byte picked hp]
  norm_num

/-- C10: on an in-bounds cell, the eyedropper sets the current color to the
6-hex-digit string of the picked value's red, green and blue bytes only —
the alpha byte appears nowhere in the string — and parsing that string back
(as the pencil does) yields an ARGB value whose alpha is 255 and whose
r/g/b equal the picked pixel's: a transparent or semi-transparent pick
becomes fully opaque on the next pencil application. -/
theorem C10_eyedropper_discards_alpha (s : EState) (x y : Int) (fuel brush : Nat)
    (_hx : 0 ≤ x ∧ x < ((W : Nat) : Int)) (_hy : 0 ≤ y ∧ y < ((H : Nat) : Int))
    (hbuf : ∀ v ∈ s.pixels, v < 4294967296) :
    ∃ s', handlePaintAt fuel Tool.eyedropper brush x y false s = some s' ∧
      s'.pixels = s.pixels ∧
      s'.color = '#' :: (byteToHex (s.pixels.getD (toIndex x y).toNat 0 / 65536 % 256) ++
        byteToHex (s.pixels.getD (toIndex x y).toNat 0 / 256 % 256) ++
        byteToHex (s.pixels.getD (toIndex x y).toNat 0 % 256)) ∧
      toUint32 (hexToArgb s'.color) =
        4278190080 + s.pixels.getD (toIndex x y).toNat 0 / 65536 % 256 * 65536 +
          s.pixels.getD (toIndex x y).toNat 0 / 256 % 256 * 256 +
          s.pixels.getD (toIndex x y).toNat 0 % 256 := by
  have hp : s.pixels.getD (toIndex x y).toNat 0 < 4294967296 :=
    getD_lt_of_all _ _ _ (by norm_num) hbuf
  set picked := s.pixels.getD (toIndex x y).toNat 0 with hpicked
  have hcol : pickColor picked = '#' :: (byteToHex (picked / 65536 % 256) ++
      byteToHex (picked / 256 % 256) ++ byteToHex (picked % 256)) := pickColor_bytes picked hp
  refine ⟨_, rfl, rfl, ?_, ?_⟩
  · exact hcol
  · show toUint32 (hexToArgb (pickColor picked)) = _
    rw [hcol]
    obtain ⟨hr1, hr2, hr3, hr4⟩ := byteToHex_facts (picked / 65536 % 256) (Nat.mod_lt _ (by norm_num))
    obtain ⟨hg1, hg2, hg3, hg4⟩ := byteToHex_facts (picked / 256 % 256) (Nat.mod_lt _ (by norm_num))
    obtain ⟨hb1, hb2, hb3, hb4⟩ := byteToHex_facts (picked % 256) (Nat.mod_lt _ (by norm_num))
    rw [show '#' :: (byteToHex (picked / 65536 % 256) ++ byteToHex (picked / 256 % 256) ++
        byteToHex (picked % 256)) =
      ['#', (byteToHex (picked / 65536 % 256)).getD 0 ' ', (byteToHex (picked / 65536 % 256)).getD 1 ' ',
        (byteToHex (picked / 256 % 256)).getD 0 ' ', (byteToHex (picked / 256 % 256)).getD 1 ' ',
        (byteToHex (picked % 256)).getD 0 ' ', (byteToHex (picked % 256)).getD 1 ' '] from by
      conv_lhs => rw [hr4, hg4, hb4]
      rfl]
    rw [hexToArgb_six _ _ _ _ _ _ hr1 hr2 hg1 hg2 hb1 hb2, hr3, hg3, hb3]

/-- C10 witness: picking the semi-transparent pixel `0x80AABBCC` at (0,0)
yields color string `#aabbcc` and re-parsing it gives the fully opaque
`0xFFAABBCC`. -/
theorem C10_eyedropper_discards_alpha_witness :
    ∃ s', handlePaintAt 0 Tool.eyedropper 1 0 0 false
        ⟨[2158672844], [], [], ['#', 'f', 'f', 'f', 'f', 'f', 'f']⟩ = some s' ∧
      s'.pixels = [2158672844] ∧
      s'.color = ['#', 'a', 'a', 'b', 'b', 'c', 'c'] ∧
      toUint32 (hexToArgb s'.color) = 4289379276 := by
  obtain ⟨s', h1, h2, h3, h4⟩ := C10_eyedropper_discards_alpha
    ⟨[2158672844], [], [], ['#', 'f', 'f', 'f', 'f', 'f', 'f']⟩ 0 0 0 1
    (by decide) (by decide) (by decide)
  refine ⟨s', h1, ?_, ?_, ?_⟩
  · exact h2
  · rw [h3]
    decide
  · rw [h4]
    decide

end Kwaxel
